import Mathlib

/-
Shallow embedding of the ShadowBook order-matching contract
(src/stylus_contract/src/lib.rs).

Modelling conventions:
* `Address` values are modelled as `Nat` (only equality and the zero
  sentinel `Address::ZERO = 0` are ever used by the contract).
* `U256` values are modelled as `Nat`; the only arithmetic operation that
  can overflow is the addition `buy.limit_price + sell.limit_price` in
  `execute_single_match`, which in a release build of `ruint`/`alloy`
  wraps modulo `2 ^ 256`, so it is modelled as `(x + y) % U256_MOD`.
* `u64` values (`id`, `next_order_id`, `timestamp`) are modelled as `Nat`;
  the counter increment `order_id + 1` wraps modulo `2 ^ 64`.
* The ambient host inputs `msg::sender()` and `block::timestamp()` are
  passed as explicit `sender` / `timestamp` arguments.
* Storage (`StorageVec<StorageOrder>`, `StorageU64`, ...) is modelled as a
  plain Lean structure holding a `List Order`; every storage read in the
  Rust source becomes a read of the current state value, every write an
  update of it, in the same program order.
* `Result<T, ShadowBookError>` becomes `Except ShadowBookError T`, and each
  state-mutating operation returns the pair (result, post-state).
-/

/-- Error enum `ShadowBookError` of the contract. -/
inductive ShadowBookError where
  | InvalidOrder
  | OrderNotFound
  | Unauthorized
  | ContractPaused
  | InsufficientBalance
  | MatchingFailed
deriving DecidableEq

/-- The `Order` struct: the core data unit of the order book. -/
structure Order where
  id : Nat
  trader : Nat
  token_in : Nat
  token_out : Nat
  amount : Nat
  limit_price : Nat
  is_buy : Bool
  timestamp : Nat
deriving DecidableEq

/-- The `MatchResult` struct returned for each matched pair. -/
structure MatchResult where
  buy_order_id : Nat
  sell_order_id : Nat
  execution_price : Nat
  amount : Nat
  gas_used : Nat
deriving DecidableEq

/-- The contract storage `ShadowBook`: order vector, id counter, owner and
the paused flag. -/
structure ShadowBook where
  orders : List Order
  next_order_id : Nat
  owner : Nat
  paused : Bool
deriving DecidableEq

/-- Modulus of the 64-bit id counter. -/
def U64_MOD : Nat := 2 ^ 64

/-- Modulus of 256-bit wrapping arithmetic. -/
def U256_MOD : Nat := 2 ^ 256

/-- `submit_order`: validates the parameters, then assigns the next id and
appends the order.  Mirrors the Rust source line by line: the three
`InvalidOrder` early returns, then `next_order_id` read/increment, then
`orders.grow()` with every field set. -/
def submit_order (s : ShadowBook) (sender timestamp token_in token_out amount limit_price : Nat)
    (is_buy : Bool) : Except ShadowBookError Nat × ShadowBook :=
  if amount = 0 then (Except.error ShadowBookError.InvalidOrder, s)
  else if token_in = token_out then (Except.error ShadowBookError.InvalidOrder, s)
  else if token_in = 0 ∨ token_out = 0 then (Except.error ShadowBookError.InvalidOrder, s)
  else
    let order_id := s.next_order_id
    let newOrder : Order :=
      ⟨order_id, sender, token_in, token_out, amount, limit_price, is_buy, timestamp⟩
    (Except.ok order_id,
      { s with next_order_id := (order_id + 1) % U64_MOD, orders := s.orders ++ [newOrder] })

/-- `get_order_at`: read the order at a vector index, `none` out of range. -/
def get_order_at (s : ShadowBook) (index : Nat) : Option Order :=
  s.orders[index]?

/-- `can_match`: opposite sides, exact mirror token pairs, and the buy limit
price at least the sell limit price. -/
def can_match (order_a order_b : Order) : Bool :=
  if order_a.is_buy = order_b.is_buy then false
  else if ¬ (order_a.token_in = order_b.token_out ∧ order_a.token_out = order_b.token_in) then
    false
  else
    let (buy_order, sell_order) :=
      if order_a.is_buy then (order_a, order_b) else (order_b, order_a)
    decide (sell_order.limit_price ≤ buy_order.limit_price)

/-- `execute_single_match`: midpoint price (the `U256` sum wraps modulo
`2 ^ 256` in a release build, then truncating division by 2), minimum
amount, fixed `gas_used` placeholder of 21000.  The Rust function ends in
`Some(MatchResult { .. })` and has no failure path. -/
def execute_single_match (order_a order_b : Order) : Option MatchResult :=
  let (buy_order, sell_order) :=
    if order_a.is_buy then (order_a, order_b) else (order_b, order_a)
  let execution_price := ((buy_order.limit_price + sell_order.limit_price) % U256_MOD) / 2
  let matched_amount :=
    if buy_order.amount < sell_order.amount then buy_order.amount else sell_order.amount
  some ⟨buy_order.id, sell_order.id, execution_price, matched_amount, 21000⟩

/-- `update_order_amount`: overwrite the amount of the order at `index`
when the index is in range (`if let Some(mut order) = self.orders.setter(index)`). -/
def update_order_amount (s : ShadowBook) (index new_amount : Nat) : ShadowBook :=
  match s.orders[index]? with
  | some o => { s with orders := s.orders.set index { o with amount := new_amount } }
  | none => s

/-- Inner loop `for j in (i + 1)..order_count` of `execute_match`.
`order_i` is the snapshot of the outer order read once before the loop (the
Rust code does not re-read index `i` inside the inner loop); `order_j` is
re-read from storage at every step.  `steps` counts the remaining
iterations, so the loop is invoked with `steps = order_count - (i + 1)` and
`j = i + 1`. -/
def matchInner (order_i : Order) (i : Nat) : Nat → Nat → ShadowBook → List MatchResult →
    List MatchResult × ShadowBook
  | 0, _, s, ms => (ms, s)
  | steps + 1, j, s, ms =>
    match get_order_at s j with
    | none => matchInner order_i i steps (j + 1) s ms
    | some order_j =>
      if order_j.amount = 0 then matchInner order_i i steps (j + 1) s ms
      else if can_match order_i order_j then
        match execute_single_match order_i order_j with
        | some result =>
          matchInner order_i i steps (j + 1)
            (update_order_amount (update_order_amount s i 0) j 0) (ms ++ [result])
        | none => matchInner order_i i steps (j + 1) s ms
      else matchInner order_i i steps (j + 1) s ms

/-- Outer loop `for i in 0..order_count` of `execute_match`.  At each index
the order is read once; a zero amount (or out-of-range read) skips the
iteration, otherwise the inner loop runs from `i + 1` with that snapshot. -/
def matchOuter (count : Nat) : Nat → Nat → ShadowBook → List MatchResult →
    List MatchResult × ShadowBook
  | 0, _, s, ms => (ms, s)
  | steps + 1, i, s, ms =>
    match get_order_at s i with
    | none => matchOuter count steps (i + 1) s ms
    | some order_i =>
      if order_i.amount = 0 then matchOuter count steps (i + 1) s ms
      else
        let inner := matchInner order_i i (count - (i + 1)) (i + 1) s ms
        matchOuter count steps (i + 1) inner.2 inner.1

/-- `execute_match`: the full pairwise pass.  `order_count` is read once at
entry; the function always returns `Ok(ms)`. -/
def execute_match (s : ShadowBook) : Except ShadowBookError (List MatchResult) × ShadowBook :=
  let cnt := s.orders.length
  let pass := matchOuter cnt cnt 0 s []
  (Except.ok pass.1, pass.2)

/-- Scan loop of `cancel_order`: walk the indices `0..order_count` over the
unchanged state, first id hit decides (ownership check, then zero the
amount); falling off the end yields `OrderNotFound`. -/
def cancelLoop (sender order_id : Nat) (s : ShadowBook) : Nat → Nat →
    Except ShadowBookError Unit × ShadowBook
  | 0, _ => (Except.error ShadowBookError.OrderNotFound, s)
  | steps + 1, i =>
    match s.orders[i]? with
    | some o =>
      if o.id = order_id then
        if o.trader ≠ sender then (Except.error ShadowBookError.Unauthorized, s)
        else (Except.ok (), { s with orders := s.orders.set i { o with amount := 0 } })
      else cancelLoop sender order_id s steps (i + 1)
    | none => cancelLoop sender order_id s steps (i + 1)

/-- `cancel_order`: linear scan for the order id, authorization check, then
mark cancelled by setting the amount to 0. -/
def cancel_order (s : ShadowBook) (sender order_id : Nat) :
    Except ShadowBookError Unit × ShadowBook :=
  cancelLoop sender order_id s s.orders.length 0

/-- `get_orders`: the active-order view, every stored order with a positive
amount, in book order.  Read-only. -/
def get_orders (s : ShadowBook) : List Order :=
  s.orders.filter (fun o => decide (0 < o.amount))

/-- `order_count`: total number of slots ever allocated. -/
def order_count (s : ShadowBook) : Nat :=
  s.orders.length

/-- One externally triggered contract operation, with its host-supplied
caller identity and (for submissions) timestamp. -/
inductive Op where
  | submit (sender timestamp token_in token_out amount limit_price : Nat) (is_buy : Bool)
  | cancel (sender order_id : Nat)
  | execMatch
  | getOrders
  | orderCount

/-- Apply one operation to the book, returning the id of a successful
submission (and `none` otherwise) together with the post-state.  The two
read-only views leave the state untouched. -/
def applyOp (s : ShadowBook) : Op → Option Nat × ShadowBook
  | Op.submit sender ts ti t_out amt lp ib =>
    match submit_order s sender ts ti t_out amt lp ib with
    | (Except.ok id, s') => (some id, s')
    | (Except.error _, s') => (none, s')
  | Op.cancel sender oid => (none, (cancel_order s sender oid).2)
  | Op.execMatch => (none, (execute_match s).2)
  | Op.getOrders => (none, s)
  | Op.orderCount => (none, s)

/-- Run a sequence of operations and collect, in order, the ids returned by
the successful submissions. -/
def runIds (s : ShadowBook) : List Op → List Nat
  | [] => []
  | op :: ops =>
    match applyOp s op with
    | (some id, s') => id :: runIds s' ops
    | (none, s') => runIds s' ops

/-- The state a freshly deployed contract starts from: empty book, id
counter 0. -/
def initBook : ShadowBook :=
  ⟨[], 0, 0, false⟩

/-- All fields of an order other than the mutable `amount` agree (the
second order is a possibly-later version of the first). -/
def sameFields (o o' : Order) : Prop :=
  o'.id = o.id ∧ o'.trader = o.trader ∧ o'.token_in = o.token_in ∧
  o'.token_out = o.token_out ∧ o'.limit_price = o.limit_price ∧
  o'.is_buy = o.is_buy ∧ o'.timestamp = o.timestamp

/-- How a matching pass (or a cancellation) may transform the order list:
the length is unchanged, every slot keeps its immutable fields, and each
amount is either untouched or has been zeroed. -/
def Evolves (l l' : List Order) : Prop :=
  l'.length = l.length ∧
  ∀ (i : Nat) (o : Order), l[i]? = some o →
    ∃ o', l'[i]? = some o' ∧ sameFields o o' ∧ (o'.amount = o.amount ∨ o'.amount = 0)

/-- The id `x` belongs to some order of `l` whose amount is nonzero. -/
def GoodId (l : List Order) (x : Nat) : Prop :=
  ∃ (a : Nat) (oa : Order), l[a]? = some oa ∧ oa.amount ≠ 0 ∧ x = oa.id

/-- No two distinct slots of the book carry the same order id. -/
def DistinctIds (l : List Order) : Prop :=
  ∀ (a b : Nat) (oa ob : Order), l[a]? = some oa → l[b]? = some ob → oa.id = ob.id → a = b

/-- No crossing pair is left among the first `count` slots: whenever two
distinct in-range orders both have nonzero amounts, they cannot match. -/
def NoCross (count : Nat) (l : List Order) : Prop :=
  ∀ (a b : Nat) (oa ob : Order), a < b → b < count → l[a]? = some oa → l[b]? = some ob →
    oa.amount ≠ 0 → ob.amount ≠ 0 → can_match oa ob = false

/-- Loop invariant of the inner loop of `execute_match`, for a fixed outer
index `i`: every inner index `b` below `jhi` has been handled, i.e. if both
the order at `i` and the order at `b` still have nonzero amounts, they
cannot match. -/
def InnerDone (i jhi : Nat) (l : List Order) : Prop :=
  ∀ (b : Nat) (ob oi : Order), i < b → b < jhi → l[b]? = some ob → ob.amount ≠ 0 →
    l[i]? = some oi → can_match oi ob = false

/-- Loop invariant of the outer loop of `execute_match`: every pair whose
outer index lies below `ihi` has been handled — if both orders still have
nonzero amounts, they cannot match. -/
def OuterDone (ihi count : Nat) (l : List Order) : Prop :=
  ∀ (a b : Nat) (oa ob : Order), a < ihi → a < b → b < count → l[a]? = some oa →
    l[b]? = some ob → oa.amount ≠ 0 → ob.amount ≠ 0 → can_match oa ob = false

theorem sameFields_refl (o : Order) : sameFields o o :=
  ⟨rfl, rfl, rfl, rfl, rfl, rfl, rfl⟩

theorem sameFields_trans {o o' o'' : Order} (h : sameFields o o') (h' : sameFields o' o'') :
    sameFields o o'' := by
  obtain ⟨h1, h2, h3, h4, h5, h6, h7⟩ := h
  obtain ⟨g1, g2, g3, g4, g5, g6, g7⟩ := h'
  exact ⟨g1.trans h1, g2.trans h2, g3.trans h3, g4.trans h4, g5.trans h5, g6.trans h6,
    g7.trans h7⟩

theorem evolves_refl (l : List Order) : Evolves l l := by
  refine ⟨rfl, fun i o h => ⟨o, h, sameFields_refl o, Or.inl rfl⟩⟩

theorem evolves_trans {l l' l'' : List Order} (h : Evolves l l') (h' : Evolves l' l'') :
    Evolves l l'' := by
  obtain ⟨hl, hp⟩ := h
  obtain ⟨hl', hp'⟩ := h'
  refine ⟨hl'.trans hl, fun i o hi => ?_⟩
  obtain ⟨o', hi', hf, ha⟩ := hp i o hi
  obtain ⟨o'', hi'', hf', ha'⟩ := hp' i o' hi'
  refine ⟨o'', hi'', sameFields_trans hf hf', ?_⟩
  rcases ha' with h1 | h1
  · rcases ha with h2 | h2
    · exact Or.inl (h1.trans h2)
    · exact Or.inr (h1.trans h2)
  · exact Or.inr h1

theorem can_match_congr {a a' b b' : Order} (ha : sameFields a a') (hb : sameFields b b') :
    can_match a' b' = can_match a b := by
  obtain ⟨-, -, hati, hato, halp, haib, -⟩ := ha
  obtain ⟨-, -, hbti, hbto, hblp, hbib, -⟩ := hb
  unfold can_match
  rw [hati, hato, haib, hbti, hbto, hbib]
  by_cases h1 : a.is_buy = b.is_buy
  · simp [h1]
  · cases hab : a.is_buy <;> simp [h1, hab, halp, hblp]

theorem update_order_amount_next_id (s : ShadowBook) (i a : Nat) :
    (update_order_amount s i a).next_order_id = s.next_order_id := by
  unfold update_order_amount
  split <;> rfl

theorem update_order_amount_length (s : ShadowBook) (i a : Nat) :
    (update_order_amount s i a).orders.length = s.orders.length := by
  unfold update_order_amount
  split
  · exact List.length_set ..
  · rfl

theorem update_zero_evolves (s : ShadowBook) (i : Nat) :
    Evolves s.orders (update_order_amount s i 0).orders := by
  unfold update_order_amount
  cases ho : s.orders[i]? with
  | none => exact evolves_refl _
  | some o =>
    refine ⟨List.length_set .., fun k ok hk => ?_⟩
    by_cases hki : k = i
    · subst hki
      have hlt : k < s.orders.length := (List.getElem?_eq_some.mp hk).1
      have hoo : o = ok := by
        rw [ho] at hk
        exact Option.some.inj hk
      subst hoo
      exact ⟨{ o with amount := 0 }, List.getElem?_set_self hlt,
        ⟨rfl, rfl, rfl, rfl, rfl, rfl, rfl⟩, Or.inr rfl⟩
    · refine ⟨ok, ?_, sameFields_refl ok, Or.inl rfl⟩
      rw [List.getElem?_set_ne (fun h => hki h.symm)]
      exact hk

theorem matchInner_evolves (order_i : Order) (i steps : Nat) :
    ∀ (j : Nat) (s : ShadowBook) (ms : List MatchResult),
      Evolves s.orders (matchInner order_i i steps j s ms).2.orders := by
  induction steps with
  | zero => intro j s ms; exact evolves_refl _
  | succ n ih =>
    intro j s ms
    rw [matchInner]
    split
    · exact ih (j + 1) s ms
    · split
      · exact ih (j + 1) s ms
      · split
        · split
          · exact evolves_trans
              (evolves_trans (update_zero_evolves s i) (update_zero_evolves _ j)) (ih ..)
          · exact ih (j + 1) s ms
        · exact ih (j + 1) s ms

theorem matchInner_next_id (order_i : Order) (i steps : Nat) :
    ∀ (j : Nat) (s : ShadowBook) (ms : List MatchResult),
      (matchInner order_i i steps j s ms).2.next_order_id = s.next_order_id := by
  induction steps with
  | zero => intro j s ms; rfl
  | succ n ih =>
    intro j s ms
    rw [matchInner]
    split
    · exact ih (j + 1) s ms
    · split
      · exact ih (j + 1) s ms
      · split
        · split
          · rw [ih, update_order_amount_next_id, update_order_amount_next_id]
          · exact ih (j + 1) s ms
        · exact ih (j + 1) s ms

theorem matchOuter_evolves (count steps : Nat) :
    ∀ (i : Nat) (s : ShadowBook) (ms : List MatchResult),
      Evolves s.orders (matchOuter count steps i s ms).2.orders := by
  induction steps with
  | zero => intro i s ms; exact evolves_refl _
  | succ n ih =>
    intro i s ms
    rw [matchOuter]
    split
    · exact ih (i + 1) s ms
    · split
      · exact ih (i + 1) s ms
      · exact evolves_trans (matchInner_evolves ..) (ih ..)

theorem matchOuter_next_id (count steps : Nat) :
    ∀ (i : Nat) (s : ShadowBook) (ms : List MatchResult),
      (matchOuter count steps i s ms).2.next_order_id = s.next_order_id := by
  induction steps with
  | zero => intro i s ms; rfl
  | succ n ih =>
    intro i s ms
    rw [matchOuter]
    split
    · exact ih (i + 1) s ms
    · split
      · exact ih (i + 1) s ms
      · rw [ih, matchInner_next_id]

theorem execute_match_evolves (s : ShadowBook) :
    Evolves s.orders (execute_match s).2.orders :=
  matchOuter_evolves ..

theorem execute_match_next_id (s : ShadowBook) :
    (execute_match s).2.next_order_id = s.next_order_id :=
  matchOuter_next_id ..

theorem cancelLoop_next_id (sender oid : Nat) (s : ShadowBook) (steps : Nat) :
    ∀ (i : Nat), (cancelLoop sender oid s steps i).2.next_order_id = s.next_order_id := by
  induction steps with
  | zero => intro i; rfl
  | succ n ih =>
    intro i
    rw [cancelLoop]
    split
    · split
      · split <;> rfl
      · exact ih (i + 1)
    · exact ih (i + 1)

theorem cancel_order_next_id (s : ShadowBook) (sender oid : Nat) :
    (cancel_order s sender oid).2.next_order_id = s.next_order_id :=
  cancelLoop_next_id ..

/-- C10: `execute_match` never returns an error; despite its `Result`
signature it always produces `Ok` with a (possibly empty) list of match
results, for every book state. -/
theorem C10_execute_match_never_errors (s : ShadowBook) :
    ∃ ms, (execute_match s).1 = Except.ok ms :=
  ⟨(matchOuter s.orders.length s.orders.length 0 s []).1, rfl⟩

/-- C2 (evidence of the code bug): with the externally supplied `paused`
flag set, `submit_order` does not fail with `ContractPaused`; it succeeds,
consumes id 0 and grows the book to one slot, because no operation of the
contract ever reads the `paused` field. -/
theorem C2_paused_flag_ignored :
    (submit_order ⟨[], 0, 0, true⟩ 1 10 1 2 5 100 true).1 = Except.ok 0 ∧
      order_count (submit_order ⟨[], 0, 0, true⟩ 1 10 1 2 5 100 true).2 = 1 ∧
      (submit_order ⟨[], 0, 0, true⟩ 1 10 1 2 5 100 true).2.paused = true :=
  ⟨rfl, rfl, rfl⟩

/-- C3: on the book holding exactly one buy order for pair (A,B) at limit
price 100 and one sell order for pair (B,A) at limit price 90, both of
amount 5, `execute_match` returns exactly one `MatchResult` with execution
price 95 (the integer midpoint) and amount 5, and both stored amounts are 0
afterwards.  Here A is address 1 and B is address 2. -/
theorem C3_single_pair_midpoint :
    execute_match ⟨[⟨0, 3, 1, 2, 5, 100, true, 10⟩, ⟨1, 4, 2, 1, 5, 90, false, 11⟩], 2, 0, false⟩ =
      (Except.ok [⟨0, 1, 95, 5, 21000⟩],
        ⟨[⟨0, 3, 1, 2, 0, 100, true, 10⟩, ⟨1, 4, 2, 1, 0, 90, false, 11⟩], 2, 0, false⟩) :=
  rfl

/-- C9 (counterexample): at the overflow input — a crossing pair whose
limit prices sum to `2 ^ 256 + 2` — the pairing is NOT aborted as a
no-match: the sum wraps modulo `2 ^ 256`, a `MatchResult` with the wrapped
midpoint price 1 is emitted, and both amounts are zeroed. -/
theorem C9_counterexample :
    execute_match
        ⟨[⟨0, 3, 1, 2, 5, U256_MOD - 2, true, 10⟩, ⟨1, 4, 2, 1, 5, 4, false, 11⟩], 2, 0, false⟩ =
      (Except.ok [⟨0, 1, 1, 5, 21000⟩],
        ⟨[⟨0, 3, 1, 2, 0, U256_MOD - 2, true, 10⟩, ⟨1, 4, 2, 1, 0, 4, false, 11⟩],
          2, 0, false⟩) ∧
      ([] : List MatchResult) ≠ [⟨0, 1, 1, 5, 21000⟩] := by
  exact ⟨rfl, by simp⟩

/-- C9 (amended): `execute_single_match` is total — no pairing is ever
aborted and `MatchingFailed` is never raised.  The execution price is the
truncated midpoint of the (wrapping, modulo `2 ^ 256`) sum of the two limit
prices and the amount is the minimum of the two amounts. -/
theorem C9_amended_no_pairing_aborted (a b : Order) :
    ∃ r, execute_single_match a b = some r ∧
      r.execution_price = ((a.limit_price + b.limit_price) % U256_MOD) / 2 ∧
      r.amount = min a.amount b.amount := by
  unfold execute_single_match
  cases hab : a.is_buy
  · refine ⟨_, rfl, ?_, ?_⟩
    · simp [Nat.add_comm]
    · simp only []
      split_ifs <;> omega
  · refine ⟨_, rfl, ?_, ?_⟩
    · simp [Nat.add_comm]
    · simp only []
      split_ifs <;> omega

/-- C5: a submission with zero amount, identical tokens, or a zero token
address always fails with `InvalidOrder` and leaves the book (hence
`order_count` and the id counter) unchanged. -/
theorem C5_invalid_submission (s : ShadowBook)
    (sender ts token_in token_out amount limit_price : Nat) (is_buy : Bool)
    (h : amount = 0 ∨ token_in = token_out ∨ token_in = 0 ∨ token_out = 0) :
    submit_order s sender ts token_in token_out amount limit_price is_buy =
      (Except.error ShadowBookError.InvalidOrder, s) := by
  unfold submit_order
  rcases h with h | h | h | h <;> split_ifs <;> simp_all

/-- C5 witness: a concrete rejected submission (identical tokens). -/
theorem C5_witness :
    submit_order initBook 1 10 7 7 5 100 true =
      (Except.error ShadowBookError.InvalidOrder, initBook) :=
  C5_invalid_submission initBook 1 10 7 7 5 100 true (Or.inr (Or.inl rfl))

theorem set_zero_evolves {l : List Order} {i : Nat} {o : Order} (ho : l[i]? = some o) :
    Evolves l (l.set i { o with amount := 0 }) := by
  refine ⟨List.length_set .., fun k ok hk => ?_⟩
  by_cases hki : k = i
  · subst hki
    have hlt : k < l.length := (List.getElem?_eq_some.mp hk).1
    have hoo : o = ok := by rw [ho] at hk; exact Option.some.inj hk
    subst hoo
    exact ⟨{ o with amount := 0 }, List.getElem?_set_self hlt,
      ⟨rfl, rfl, rfl, rfl, rfl, rfl, rfl⟩, Or.inr rfl⟩
  · exact ⟨ok, by rw [List.getElem?_set_ne (fun hh => hki hh.symm)]; exact hk,
      sameFields_refl ok, Or.inl rfl⟩

theorem cancelLoop_evolves (sender oid : Nat) (s : ShadowBook) (steps : Nat) :
    ∀ (i : Nat), Evolves s.orders (cancelLoop sender oid s steps i).2.orders := by
  induction steps with
  | zero => intro i; exact evolves_refl _
  | succ n ih =>
    intro i
    rw [cancelLoop]
    split
    · rename_i o ho
      split
      · split
        · exact evolves_refl _
        · exact set_zero_evolves ho
      · exact ih (i + 1)
    · exact ih (i + 1)

theorem cancel_order_evolves (s : ShadowBook) (sender oid : Nat) :
    Evolves s.orders (cancel_order s sender oid).2.orders :=
  cancelLoop_evolves ..

theorem submit_order_getElem (s : ShadowBook) (sender ts ti t_out amt lp : Nat) (ib : Bool)
    (i : Nat) (o : Order) (h : s.orders[i]? = some o) :
    (submit_order s sender ts ti t_out amt lp ib).2.orders[i]? = some o := by
  have hlt : i < s.orders.length := (List.getElem?_eq_some.mp h).1
  unfold submit_order
  split_ifs <;> try exact h
  show (s.orders ++ [_])[i]? = some o
  rw [List.getElem?_append_left hlt]
  exact h

theorem applyOp_submit_snd (s : ShadowBook) (sender ts ti t_out amt lp : Nat) (ib : Bool) :
    (applyOp s (Op.submit sender ts ti t_out amt lp ib)).2 =
      (submit_order s sender ts ti t_out amt lp ib).2 := by
  rcases hsub : submit_order s sender ts ti t_out amt lp ib with ⟨r, s'⟩
  cases r <;> simp [applyOp, hsub]

/-- C8: every operation of the contract — submission, cancellation,
matching, and the two read-only views — keeps the immutable fields (`id`,
`trader`, `token_in`, `token_out`, `limit_price`, `is_buy`, `timestamp`) of
every already-stored order unchanged, and never increases its amount. -/
theorem C8_only_amount_mutated (s : ShadowBook) (op : Op) (i : Nat) (o : Order)
    (h : s.orders[i]? = some o) :
    ∃ o', (applyOp s op).2.orders[i]? = some o' ∧ sameFields o o' ∧ o'.amount ≤ o.amount := by
  cases op with
  | submit sender ts ti t_out amt lp ib =>
    refine ⟨o, ?_, sameFields_refl o, le_refl _⟩
    rw [applyOp_submit_snd]
    exact submit_order_getElem s sender ts ti t_out amt lp ib i o h
  | cancel sender oid =>
    obtain ⟨-, hp⟩ := cancel_order_evolves s sender oid
    obtain ⟨o', h1, h2, h3⟩ := hp i o h
    exact ⟨o', h1, h2, by rcases h3 with h3 | h3 <;> omega⟩
  | execMatch =>
    obtain ⟨-, hp⟩ := execute_match_evolves s
    obtain ⟨o', h1, h2, h3⟩ := hp i o h
    exact ⟨o', h1, h2, by rcases h3 with h3 | h3 <;> omega⟩
  | getOrders => exact ⟨o, h, sameFields_refl o, le_refl _⟩
  | orderCount => exact ⟨o, h, sameFields_refl o, le_refl _⟩

/-- C8 witness: cancelling the only order of a one-order book keeps its
immutable fields and does not increase its amount. -/
theorem C8_witness :
    ∃ o', (applyOp ⟨[⟨0, 3, 1, 2, 5, 100, true, 10⟩], 1, 0, false⟩
        (Op.cancel 3 0)).2.orders[0]? = some o' ∧
      sameFields ⟨0, 3, 1, 2, 5, 100, true, 10⟩ o' ∧ o'.amount ≤ 5 :=
  C8_only_amount_mutated ⟨[⟨0, 3, 1, 2, 5, 100, true, 10⟩], 1, 0, false⟩ (Op.cancel 3 0) 0
    ⟨0, 3, 1, 2, 5, 100, true, 10⟩ rfl

theorem submit_order_cases (s : ShadowBook) (sender ts ti t_out amt lp : Nat) (ib : Bool) :
    submit_order s sender ts ti t_out amt lp ib =
        (Except.error ShadowBookError.InvalidOrder, s) ∨
      submit_order s sender ts ti t_out amt lp ib =
        (Except.ok s.next_order_id,
          { s with next_order_id := (s.next_order_id + 1) % U64_MOD,
                   orders := s.orders ++ [⟨s.next_order_id, sender, ti, t_out, amt, lp, ib, ts⟩] }) := by
  unfold submit_order
  split_ifs with h1 h2 h3
  · exact Or.inl rfl
  · exact Or.inl rfl
  · exact Or.inl rfl
  · exact Or.inr rfl

theorem runIds_range (ops : List Op) :
    ∀ (s : ShadowBook), (runIds s ops).length + s.next_order_id ≤ U64_MOD →
      runIds s ops = List.range' s.next_order_id (runIds s ops).length := by
  induction ops with
  | nil => intro s _; rfl
  | cons op ops ih =>
    intro s h
    cases op with
    | submit sender ts ti t_out amt lp ib =>
      rcases submit_order_cases s sender ts ti t_out amt lp ib with hcase | hcase
      · rw [runIds] at h ⊢
        simp only [applyOp, hcase] at h ⊢
        exact ih s h
      · rw [runIds] at h ⊢
        simp only [applyOp, hcase] at h ⊢
        rcases Nat.lt_or_ge (s.next_order_id + 1) U64_MOD with hlt | hge
        · have hmod : (s.next_order_id + 1) % U64_MOD = s.next_order_id + 1 :=
            Nat.mod_eq_of_lt hlt
          rw [hmod] at h ⊢
          have hrec := ih { s with next_order_id := s.next_order_id + 1, orders := s.orders ++ [⟨s.next_order_id, sender, ti, t_out, amt, lp, ib, ts⟩] } (by
            simp only [List.length_cons] at h
            show _ + (s.next_order_id + 1) ≤ U64_MOD
            omega)
          simp only [List.length_cons, List.range'_succ]
          exact congrArg (s.next_order_id :: ·) hrec
        · have hlen : (runIds { s with next_order_id := (s.next_order_id + 1) % U64_MOD, orders := s.orders ++ [⟨s.next_order_id, sender, ti, t_out, amt, lp, ib, ts⟩] } ops).length = 0 := by
            simp only [List.length_cons] at h
            omega
          rw [List.length_eq_zero.mp hlen]
          simp [List.range'_succ]
    | cancel sender oid =>
      rw [runIds] at h ⊢
      simp only [applyOp] at h ⊢
      have hnext := cancel_order_next_id s sender oid
      rw [← hnext] at h ⊢
      exact ih _ h
    | execMatch =>
      rw [runIds] at h ⊢
      simp only [applyOp] at h ⊢
      have hnext := execute_match_next_id s
      rw [← hnext] at h ⊢
      exact ih _ h
    | getOrders =>
      rw [runIds] at h ⊢
      simp only [applyOp] at h ⊢
      exact ih _ h
    | orderCount =>
      rw [runIds] at h ⊢
      simp only [applyOp] at h ⊢
      exact ih _ h

/-- C4: starting from a fresh deployment, the ids handed out to the
successful submissions of any operation sequence (with cancellations,
matching passes and rejected submissions freely interleaved) are exactly
0, 1, 2, ... with no gaps and no reuse; rejected submissions get no id and
do not advance the counter.  The bound keeps the run below the wrap-around
of the 64-bit id counter, which no realistic execution can reach. -/
theorem C4_sequential_ids (ops : List Op)
    (h : (runIds initBook ops).length ≤ U64_MOD) :
    runIds initBook ops = List.range (runIds initBook ops).length := by
  rw [List.range_eq_range']
  have h0 : (runIds initBook ops).length + initBook.next_order_id ≤ U64_MOD := by
    simpa [initBook] using h
  simpa [initBook] using runIds_range ops initBook h0

/-- C4 witness: a run with a valid submission, a rejected one, a
cancellation and another valid submission yields ids `[0, 1]`. -/
theorem C4_witness :
    runIds initBook [Op.submit 1 10 1 2 5 100 true, Op.submit 1 10 7 7 5 100 true,
        Op.cancel 1 0, Op.submit 2 11 2 3 4 50 false] =
      List.range (runIds initBook [Op.submit 1 10 1 2 5 100 true, Op.submit 1 10 7 7 5 100 true,
        Op.cancel 1 0, Op.submit 2 11 2 3 4 50 false]).length :=
  C4_sequential_ids
    [Op.submit 1 10 1 2 5 100 true, Op.submit 1 10 7 7 5 100 true,
      Op.cancel 1 0, Op.submit 2 11 2 3 4 50 false] (by decide)

theorem cancelLoop_spec (sender oid : Nat) (s : ShadowBook) (idx : Nat) (o : Order)
    (ho : s.orders[idx]? = some o) (hid : o.id = oid)
    (hfirst : ∀ (k : Nat) (ok : Order), k < idx → s.orders[k]? = some ok → ok.id ≠ oid) :
    ∀ (steps i : Nat), steps + i = s.orders.length → i ≤ idx →
      cancelLoop sender oid s steps i =
        if o.trader ≠ sender then (Except.error ShadowBookError.Unauthorized, s)
        else (Except.ok (), { s with orders := s.orders.set idx { o with amount := 0 } }) := by
  have hidx : idx < s.orders.length := (List.getElem?_eq_some.mp ho).1
  intro steps
  induction steps with
  | zero => intro i h0 hi; omega
  | succ n ih =>
    intro i hsum hi
    rcases Nat.lt_or_eq_of_le hi with hlt | heq
    · have hilen : i < s.orders.length := by omega
      have hoi : s.orders[i]? = some (s.orders[i]) := List.getElem?_eq_getElem hilen
      simp only [cancelLoop, hoi]
      rw [if_neg (by simpa using hfirst i (s.orders[i]) hlt hoi)]
      exact ih (i + 1) (by omega) (by omega)
    · subst heq
      simp only [cancelLoop, ho]
      rw [if_pos hid]

/-- C6: for the first order of the book carrying the requested id,
cancellation by a caller other than that order's trader fails with
`Unauthorized` and leaves the whole book unchanged, while cancellation by
the order's own trader succeeds and zeroes exactly that order's amount. -/
theorem C6_cancel_authorization (s : ShadowBook) (sender oid idx : Nat) (o : Order)
    (ho : s.orders[idx]? = some o) (hid : o.id = oid)
    (hfirst : ∀ (k : Nat) (ok : Order), k < idx → s.orders[k]? = some ok → ok.id ≠ oid) :
    (o.trader ≠ sender →
      cancel_order s sender oid = (Except.error ShadowBookError.Unauthorized, s)) ∧
    (o.trader = sender →
      cancel_order s sender oid =
        (Except.ok (), { s with orders := s.orders.set idx { o with amount := 0 } })) := by
  have hzero : (0 : Nat) ≤ idx := Nat.zero_le idx
  have hspec := cancelLoop_spec sender oid s idx o ho hid hfirst s.orders.length 0 (by omega) hzero
  constructor
  · intro hne
    rw [cancel_order, hspec, if_pos hne]
  · intro heq
    rw [cancel_order, hspec, if_neg (by simp [heq])]

/-- C6 witness: on a one-order book (id 5, trader 3), cancelling as caller
4 is rejected with `Unauthorized` and changes nothing, while cancelling as
trader 3 succeeds and zeroes the amount. -/
theorem C6_witness :
    cancel_order ⟨[⟨5, 3, 1, 2, 7, 100, true, 10⟩], 6, 0, false⟩ 4 5 =
        (Except.error ShadowBookError.Unauthorized,
          ⟨[⟨5, 3, 1, 2, 7, 100, true, 10⟩], 6, 0, false⟩) ∧
      cancel_order ⟨[⟨5, 3, 1, 2, 7, 100, true, 10⟩], 6, 0, false⟩ 3 5 =
        (Except.ok (), ⟨[⟨5, 3, 1, 2, 0, 100, true, 10⟩], 6, 0, false⟩) := by
  constructor
  · exact (C6_cancel_authorization ⟨[⟨5, 3, 1, 2, 7, 100, true, 10⟩], 6, 0, false⟩ 4 5 0
      ⟨5, 3, 1, 2, 7, 100, true, 10⟩ rfl rfl
      (fun k ok hk _ => absurd hk (Nat.not_lt_zero k))).1 (by decide)
  · exact ((C6_cancel_authorization ⟨[⟨5, 3, 1, 2, 7, 100, true, 10⟩], 6, 0, false⟩ 3 5 0
      ⟨5, 3, 1, 2, 7, 100, true, 10⟩ rfl rfl
      (fun k ok hk _ => absurd hk (Nat.not_lt_zero k))).2 rfl).trans rfl

theorem goodId_of_read {l0 l : List Order} (hev : Evolves l0 l)
    {k : Nat} {o : Order} (ho : l[k]? = some o) (hnz : o.amount ≠ 0) :
    GoodId l0 o.id := by
  obtain ⟨hlen, hp⟩ := hev
  have hk : k < l0.length := by
    have := (List.getElem?_eq_some.mp ho).1
    omega
  have h0 : l0[k]? = some l0[k] := List.getElem?_eq_getElem hk
  obtain ⟨o', ho', hf, ha⟩ := hp k _ h0
  have hoo : o' = o := by
    rw [ho] at ho'
    exact (Option.some.inj ho').symm
  subst hoo
  refine ⟨k, l0[k], h0, ?_, hf.1⟩
  rcases ha with ha | ha
  · rw [← ha]
    exact hnz
  · exact absurd ha hnz

theorem execute_single_match_ids (a b : Order) (r : MatchResult)
    (h : execute_single_match a b = some r) :
    (r.buy_order_id = a.id ∨ r.buy_order_id = b.id) ∧
      (r.sell_order_id = a.id ∨ r.sell_order_id = b.id) := by
  unfold execute_single_match at h
  cases hab : a.is_buy <;> rw [hab] at h <;> simp only [Bool.false_eq_true, if_false,
    if_true, reduceIte] at h <;> rw [← Option.some.inj h]
  · exact ⟨Or.inr rfl, Or.inl rfl⟩
  · exact ⟨Or.inl rfl, Or.inr rfl⟩

theorem innerDone_mono {l l' : List Order} (hev : Evolves l l') {i jhi : Nat}
    (h : InnerDone i jhi l) : InnerDone i jhi l' := by
  obtain ⟨hlen, hp⟩ := hev
  intro b ob oi hib hbj hsb hnb hsi
  have hbl : b < l.length := by
    have := (List.getElem?_eq_some.mp hsb).1
    omega
  have hil : i < l.length := by
    have := (List.getElem?_eq_some.mp hsi).1
    omega
  have hb0 : l[b]? = some l[b] := List.getElem?_eq_getElem hbl
  have hi0 : l[i]? = some l[i] := List.getElem?_eq_getElem hil
  obtain ⟨ob', hob', hfb, hab⟩ := hp b _ hb0
  obtain ⟨oi', hoi', hfi, hai⟩ := hp i _ hi0
  have hbb : ob' = ob := by rw [hsb] at hob'; exact (Option.some.inj hob').symm
  have hii : oi' = oi := by rw [hsi] at hoi'; exact (Option.some.inj hoi').symm
  subst hbb; subst hii
  have hnb0 : (l[b]).amount ≠ 0 := by
    rcases hab with hab | hab
    · rw [← hab]; exact hnb
    · exact absurd hab hnb
  have hcm := h b l[b] l[i] hib hbj hb0 hnb0 hi0
  rw [can_match_congr hfi hfb]
  exact hcm

theorem outerDone_mono {l l' : List Order} (hev : Evolves l l') {ihi count : Nat}
    (h : OuterDone ihi count l) : OuterDone ihi count l' := by
  obtain ⟨hlen, hp⟩ := hev
  intro a b oa ob ha hab hb hsa hsb hna hnb
  have hal : a < l.length := by
    have := (List.getElem?_eq_some.mp hsa).1
    omega
  have hbl : b < l.length := by
    have := (List.getElem?_eq_some.mp hsb).1
    omega
  have ha0 : l[a]? = some l[a] := List.getElem?_eq_getElem hal
  have hb0 : l[b]? = some l[b] := List.getElem?_eq_getElem hbl
  obtain ⟨oa', hoa', hfa, haa⟩ := hp a _ ha0
  obtain ⟨ob', hob', hfb, hbb⟩ := hp b _ hb0
  have h1 : oa' = oa := by rw [hsa] at hoa'; exact (Option.some.inj hoa').symm
  have h2 : ob' = ob := by rw [hsb] at hob'; exact (Option.some.inj hob').symm
  subst h1; subst h2
  have hna0 : (l[a]).amount ≠ 0 := by
    rcases haa with haa | haa
    · rw [← haa]; exact hna
    · exact absurd haa hna
  have hnb0 : (l[b]).amount ≠ 0 := by
    rcases hbb with hbb | hbb
    · rw [← hbb]; exact hnb
    · exact absurd hbb hnb
  have hcm := h a b l[a] l[b] ha hab hb ha0 hb0 hna0 hnb0
  rw [can_match_congr hfa hfb]
  exact hcm

theorem distinctIds_of_nodup {l : List Order} (h : (l.map Order.id).Nodup) : DistinctIds l := by
  intro a b oa ob ha hb hid
  by_contra hne
  have hal : a < l.length := (List.getElem?_eq_some.mp ha).1
  have hbl : b < l.length := (List.getElem?_eq_some.mp hb).1
  rcases Nat.lt_or_ge a b with hab | hab
  · have hcon := (List.nodup_iff_getElem?_ne_getElem?.mp h) a b hab (by simpa using hbl)
    apply hcon
    rw [List.getElem?_map, List.getElem?_map, ha, hb]
    simp [hid]
  · have hba : b < a := by omega
    have hcon := (List.nodup_iff_getElem?_ne_getElem?.mp h) b a hba (by simpa using hal)
    apply hcon
    rw [List.getElem?_map, List.getElem?_map, ha, hb]
    simp [hid]

theorem matchInner_good (s0 : ShadowBook) (order_i : Order) (i steps : Nat) :
    ∀ (j : Nat) (s : ShadowBook) (ms : List MatchResult),
      Evolves s0.orders s.orders →
      GoodId s0.orders order_i.id →
      (∀ r ∈ ms, GoodId s0.orders r.buy_order_id ∧ GoodId s0.orders r.sell_order_id) →
      ∀ r ∈ (matchInner order_i i steps j s ms).1,
        GoodId s0.orders r.buy_order_id ∧ GoodId s0.orders r.sell_order_id := by
  induction steps with
  | zero => intro j s ms _ _ hms r hr; exact hms r hr
  | succ n ih =>
    intro j s ms hev hgi hms
    rw [matchInner]
    split
    · exact ih (j + 1) s ms hev hgi hms
    · rename_i order_j hoj
      split
      · exact ih (j + 1) s ms hev hgi hms
      · rename_i hnzj
        split
        · rcases hesm : execute_single_match order_i order_j with _ | r
          · exact ih (j + 1) s ms hev hgi hms
          · refine ih (j + 1) _ _ ?_ hgi ?_
            · exact evolves_trans hev
                (evolves_trans (update_zero_evolves s i) (update_zero_evolves _ j))
            · intro r' hr'
              rcases List.mem_append.mp hr' with hmem | hmem
              · exact hms r' hmem
              · have hrr : r' = r := List.mem_singleton.mp hmem
                rw [hrr]
                have hgj : GoodId s0.orders order_j.id := by
                  have hoj' : s.orders[j]? = some order_j := hoj
                  exact goodId_of_read hev hoj' hnzj
                obtain ⟨hbuy, hsell⟩ := execute_single_match_ids order_i order_j r hesm
                constructor
                · rcases hbuy with hb | hb
                  · rw [hb]; exact hgi
                  · rw [hb]; exact hgj
                · rcases hsell with hb | hb
                  · rw [hb]; exact hgi
                  · rw [hb]; exact hgj
        · exact ih (j + 1) s ms hev hgi hms

theorem matchOuter_good (s0 : ShadowBook) (count steps : Nat) :
    ∀ (i : Nat) (s : ShadowBook) (ms : List MatchResult),
      Evolves s0.orders s.orders →
      (∀ r ∈ ms, GoodId s0.orders r.buy_order_id ∧ GoodId s0.orders r.sell_order_id) →
      ∀ r ∈ (matchOuter count steps i s ms).1,
        GoodId s0.orders r.buy_order_id ∧ GoodId s0.orders r.sell_order_id := by
  induction steps with
  | zero => intro i s ms _ hms r hr; exact hms r hr
  | succ n ih =>
    intro i s ms hev hms
    rw [matchOuter]
    split
    · exact ih (i + 1) s ms hev hms
    · rename_i order_i hoi
      split
      · exact ih (i + 1) s ms hev hms
      · rename_i hnzi
        refine ih (i + 1) _ _ ?_ ?_
        · exact evolves_trans hev (matchInner_evolves order_i i (count - (i + 1)) (i + 1) s ms)
        · refine matchInner_good s0 order_i i (count - (i + 1)) (i + 1) s ms hev ?_ hms
          have hoi' : s.orders[i]? = some order_i := hoi
          exact goodId_of_read hev hoi' hnzi

/-- C1 (amended): amounts are read live when an order is visited as the
inner order, or when its own outer iteration starts, so an order that is
inactive when the pass begins is skipped by every pair check and its id
appears in no `MatchResult` (for books with pairwise-distinct ids).  Only
the stale per-iteration snapshot of the outer order escapes this — an outer
order zeroed by a match of its own inner loop can still match again within
that iteration, which is exactly what the counterexample exhibits. -/
theorem C1_amended_inactive_never_matched (s : ShadowBook) (k : Nat) (o : Order)
    (hdist : DistinctIds s.orders) (ho : s.orders[k]? = some o) (h0 : o.amount = 0) :
    ∀ (ms : List MatchResult), (execute_match s).1 = Except.ok ms →
      ∀ r ∈ ms, r.buy_order_id ≠ o.id ∧ r.sell_order_id ≠ o.id := by
  intro ms hms r hr
  have hok : (matchOuter s.orders.length s.orders.length 0 s []).1 = ms := by
    simpa [execute_match] using hms
  rw [← hok] at hr
  have hgood := matchOuter_good s s.orders.length s.orders.length 0 s []
    (evolves_refl _) (by intro r' hr'; cases hr') r hr
  obtain ⟨⟨a, oa, hsa, hna, hb⟩, ⟨a', oa', hsa', hna', hs'⟩⟩ := hgood
  constructor
  · intro hbad
    have hak : a = k := hdist a k oa o hsa ho (by rw [← hb, hbad])
    subst hak
    rw [ho] at hsa
    have : o = oa := Option.some.inj hsa
    rw [← this] at hna
    exact hna h0
  · intro hbad
    have hak : a' = k := hdist a' k oa' o hsa' ho (by rw [← hs', hbad])
    subst hak
    rw [ho] at hsa'
    have : o = oa' := Option.some.inj hsa'
    rw [← this] at hna'
    exact hna' h0

/-- C1 amended witness: in a book whose first order (id 7) is already
inactive, the single match produced by the pass references only ids 0
and 1, not 7. -/
theorem C1_amended_witness :
    (⟨0, 1, 95, 5, 21000⟩ : MatchResult).buy_order_id ≠ 7 ∧
      (⟨0, 1, 95, 5, 21000⟩ : MatchResult).sell_order_id ≠ 7 := by
  have h := C1_amended_inactive_never_matched
    ⟨[⟨7, 3, 1, 2, 0, 100, true, 9⟩, ⟨0, 3, 1, 2, 5, 100, true, 10⟩,
      ⟨1, 4, 2, 1, 5, 90, false, 11⟩], 3, 0, false⟩ 0 ⟨7, 3, 1, 2, 0, 100, true, 9⟩
    (distinctIds_of_nodup (by decide))
    rfl rfl
  exact h [⟨0, 1, 95, 5, 21000⟩] rfl ⟨0, 1, 95, 5, 21000⟩ (List.mem_singleton.mpr rfl)

/-- C1 (counterexample): with a buy order at index 0 and two crossing sell
orders at indices 1 and 2, the pass matches the buy order TWICE — after the
first match zeroes it, the inner loop keeps using the stale snapshot read
at the start of outer iteration 0 — so order id 0 appears in two
`MatchResult`s of a single pass, contradicting the claim. -/
theorem C1_counterexample :
    (execute_match ⟨[⟨0, 3, 1, 2, 5, 100, true, 10⟩, ⟨1, 4, 2, 1, 5, 90, false, 11⟩,
        ⟨2, 4, 2, 1, 5, 90, false, 12⟩], 3, 0, false⟩).1 =
      Except.ok [⟨0, 1, 95, 5, 21000⟩, ⟨0, 2, 95, 5, 21000⟩] ∧
      (⟨0, 1, 95, 5, 21000⟩ : MatchResult).buy_order_id =
        (⟨0, 2, 95, 5, 21000⟩ : MatchResult).buy_order_id ∧
      (⟨0, 1, 95, 5, 21000⟩ : MatchResult) ≠ (⟨0, 2, 95, 5, 21000⟩ : MatchResult) := by
  refine ⟨rfl, rfl, ?_⟩
  intro hcontra
  cases hcontra

theorem execute_single_match_isSome (a b : Order) :
    ∃ r, execute_single_match a b = some r := by
  unfold execute_single_match
  cases hab : a.is_buy <;> exact ⟨_, rfl⟩

theorem update_zero_getElem_self {s : ShadowBook} {k : Nat} {o : Order}
    (h : s.orders[k]? = some o) :
    (update_order_amount s k 0).orders[k]? = some { o with amount := 0 } := by
  simp only [update_order_amount, h]
  exact List.getElem?_set_self (List.getElem?_eq_some.mp h).1

theorem update_getElem_ne (s : ShadowBook) (k a m : Nat) (hne : k ≠ m) :
    (update_order_amount s k a).orders[m]? = s.orders[m]? := by
  unfold update_order_amount
  split
  · exact List.getElem?_set_ne hne
  · rfl

theorem matchInner_done (order_i : Order) (i count steps : Nat) :
    ∀ (j : Nat) (s : ShadowBook) (ms : List MatchResult),
      steps + j = count →
      count ≤ s.orders.length →
      i < j →
      (∃ osi, s.orders[i]? = some osi ∧ sameFields order_i osi) →
      InnerDone i j s.orders →
      InnerDone i count (matchInner order_i i steps j s ms).2.orders := by
  induction steps with
  | zero =>
    intro j s ms hsum _ _ _ hdone
    have hjc : j = count := by omega
    subst hjc
    exact hdone
  | succ n ih =>
    intro j s ms hsum hcount hij hsnap hdone
    rw [matchInner]
    split
    · rename_i hnone
      refine ih (j + 1) s ms (by omega) hcount (by omega) hsnap ?_
      intro b ob oi hib hbj hsb hnb hsi
      rcases Nat.lt_or_eq_of_le (Nat.lt_succ_iff.mp hbj) with hb' | hb'
      · exact hdone b ob oi hib hb' hsb hnb hsi
      · subst hb'
        rw [get_order_at] at hnone
        rw [hnone] at hsb
        cases hsb
    · rename_i order_j hoj
      split
      · rename_i h0
        refine ih (j + 1) s ms (by omega) hcount (by omega) hsnap ?_
        intro b ob oi hib hbj hsb hnb hsi
        rcases Nat.lt_or_eq_of_le (Nat.lt_succ_iff.mp hbj) with hb' | hb'
        · exact hdone b ob oi hib hb' hsb hnb hsi
        · subst hb'
          have hjo : s.orders[b]? = some order_j := hoj
          rw [hjo] at hsb
          have hob : order_j = ob := Option.some.inj hsb
          rw [← hob] at hnb
          exact absurd h0 hnb
      · rename_i h0
        split
        · rcases hesm : execute_single_match order_i order_j with _ | r
          · obtain ⟨r0, hr0⟩ := execute_single_match_isSome order_i order_j
            rw [hesm] at hr0
            cases hr0
          · have hev2 : Evolves s.orders
                (update_order_amount (update_order_amount s i 0) j 0).orders :=
              evolves_trans (update_zero_evolves s i) (update_zero_evolves _ j)
            refine ih (j + 1) _ _ (by omega) ?_ (by omega) ?_ ?_
            · rw [update_order_amount_length, update_order_amount_length]
              exact hcount
            · obtain ⟨osi, hsi, hfi⟩ := hsnap
              obtain ⟨o', ho', hf', _⟩ := hev2.2 i osi hsi
              exact ⟨o', ho', sameFields_trans hfi hf'⟩
            · intro b ob oi hib hbj hsb hnb hsi
              rcases Nat.lt_or_eq_of_le (Nat.lt_succ_iff.mp hbj) with hb' | hb'
              · exact innerDone_mono hev2 hdone b ob oi hib hb' hsb hnb hsi
              · subst hb'
                have h1 : (update_order_amount s i 0).orders[b]? = some order_j := by
                  rw [update_getElem_ne s i 0 b (by omega)]
                  exact hoj
                have h2 : (update_order_amount (update_order_amount s i 0) b 0).orders[b]? =
                    some { order_j with amount := 0 } := update_zero_getElem_self h1
                rw [h2] at hsb
                have hob : { order_j with amount := 0 } = ob := Option.some.inj hsb
                rw [← hob] at hnb
                exact absurd rfl hnb
        · rename_i hcm
          refine ih (j + 1) s ms (by omega) hcount (by omega) hsnap ?_
          intro b ob oi hib hbj hsb hnb hsi
          rcases Nat.lt_or_eq_of_le (Nat.lt_succ_iff.mp hbj) with hb' | hb'
          · exact hdone b ob oi hib hb' hsb hnb hsi
          · subst hb'
            obtain ⟨osi, hsi0, hfi⟩ := hsnap
            have hoo : osi = oi := by
              rw [hsi0] at hsi
              exact Option.some.inj hsi
            have hjo : s.orders[b]? = some order_j := hoj
            have hob : order_j = ob := by
              rw [hjo] at hsb
              exact Option.some.inj hsb
            have hfoi : sameFields order_i oi := hoo ▸ hfi
            have hfob : sameFields order_j ob := hob ▸ sameFields_refl order_j
            rw [can_match_congr hfoi hfob]
            exact eq_false_of_ne_true hcm

theorem matchOuter_done (count steps : Nat) :
    ∀ (i : Nat) (s : ShadowBook) (ms : List MatchResult),
      steps + i = count →
      count ≤ s.orders.length →
      OuterDone i count s.orders →
      OuterDone count count (matchOuter count steps i s ms).2.orders := by
  induction steps with
  | zero =>
    intro i s ms hsum _ hdone
    have hic : i = count := by omega
    subst hic
    exact hdone
  | succ n ih =>
    intro i s ms hsum hcount hdone
    rw [matchOuter]
    split
    · rename_i hnone
      refine ih (i + 1) s ms (by omega) hcount ?_
      intro a b oa ob ha hab hb hsa hsb hna hnb
      rcases Nat.lt_or_eq_of_le (Nat.lt_succ_iff.mp ha) with ha' | ha'
      · exact hdone a b oa ob ha' hab hb hsa hsb hna hnb
      · subst ha'
        rw [get_order_at] at hnone
        rw [hnone] at hsa
        cases hsa
    · rename_i order_i hoi
      split
      · rename_i h0
        refine ih (i + 1) s ms (by omega) hcount ?_
        intro a b oa ob ha hab hb hsa hsb hna hnb
        rcases Nat.lt_or_eq_of_le (Nat.lt_succ_iff.mp ha) with ha' | ha'
        · exact hdone a b oa ob ha' hab hb hsa hsb hna hnb
        · subst ha'
          have hao : s.orders[a]? = some order_i := hoi
          rw [hao] at hsa
          have hoa : order_i = oa := Option.some.inj hsa
          rw [← hoa] at hna
          exact absurd h0 hna
      · rename_i h0
        have hev := matchInner_evolves order_i i (count - (i + 1)) (i + 1) s ms
        refine ih (i + 1) _ _ (by omega) ?_ ?_
        · rw [hev.1]
          exact hcount
        · have hinner : InnerDone i count
              (matchInner order_i i (count - (i + 1)) (i + 1) s ms).2.orders :=
            matchInner_done order_i i count (count - (i + 1)) (i + 1) s ms (by omega) hcount
              (Nat.lt_succ_self i) ⟨order_i, hoi, sameFields_refl order_i⟩
              (by
                intro b ob oi hib hbj
                have hfalse : False := by omega
                exact hfalse.elim)
          have hmono := outerDone_mono hev hdone
          intro a b oa ob ha hab hb hsa hsb hna hnb
          rcases Nat.lt_or_eq_of_le (Nat.lt_succ_iff.mp ha) with ha' | ha'
          · exact hmono a b oa ob ha' hab hb hsa hsb hna hnb
          · subst ha'
            exact hinner b ob oa hab hb hsb hnb hsa

theorem matchInner_noop (order_i : Order) (i count steps : Nat) :
    ∀ (j : Nat) (s : ShadowBook) (ms : List MatchResult),
      steps + j = count →
      (∀ (b : Nat) (ob : Order), j ≤ b → b < count → s.orders[b]? = some ob →
        ob.amount ≠ 0 → can_match order_i ob = false) →
      matchInner order_i i steps j s ms = (ms, s) := by
  induction steps with
  | zero => intro j s ms _ _; rfl
  | succ n ih =>
    intro j s ms hsum hq
    rw [matchInner]
    split
    · exact ih (j + 1) s ms (by omega) (fun b ob hb hbc => hq b ob (by omega) hbc)
    · rename_i order_j hoj
      split
      · exact ih (j + 1) s ms (by omega) (fun b ob hb hbc => hq b ob (by omega) hbc)
      · rename_i h0
        split
        · rename_i hcm
          exfalso
          have hjo : s.orders[j]? = some order_j := hoj
          have hfalse := hq j order_j (le_refl j) (by omega) hjo h0
          rw [hfalse] at hcm
          cases hcm
        · exact ih (j + 1) s ms (by omega) (fun b ob hb hbc => hq b ob (by omega) hbc)

theorem matchOuter_noop (count steps : Nat) :
    ∀ (i : Nat) (s : ShadowBook) (ms : List MatchResult),
      steps + i = count →
      NoCross count s.orders →
      matchOuter count steps i s ms = (ms, s) := by
  induction steps with
  | zero => intro i s ms _ _; rfl
  | succ n ih =>
    intro i s ms hsum hnc
    rw [matchOuter]
    split
    · exact ih (i + 1) s ms (by omega) hnc
    · rename_i order_i hoi
      split
      · exact ih (i + 1) s ms (by omega) hnc
      · rename_i h0
        have hio : s.orders[i]? = some order_i := hoi
        have hinner : matchInner order_i i (count - (i + 1)) (i + 1) s ms = (ms, s) :=
          matchInner_noop order_i i count (count - (i + 1)) (i + 1) s ms (by omega)
            (fun b ob hb hbc hsb hnb => hnc i b order_i ob (by omega) hbc hio hsb h0 hnb)
        rw [hinner]
        exact ih (i + 1) s ms (by omega) hnc

/-- C7: running `execute_match` twice in a row (with no intervening
submissions) yields the empty match list on the second call: the first pass
leaves no crossing pair among the orders that are still active, so every
pair check of the second pass is skipped or fails. -/
theorem C7_second_pass_empty (s : ShadowBook) :
    (execute_match (execute_match s).2).1 = Except.ok [] := by
  have hev := execute_match_evolves s
  have hlen : (execute_match s).2.orders.length = s.orders.length := hev.1
  have houter : OuterDone s.orders.length s.orders.length (execute_match s).2.orders :=
    matchOuter_done s.orders.length s.orders.length 0 s [] (by omega) (le_refl _)
      (fun a b oa ob ha => absurd ha (Nat.not_lt_zero a))
  have hnc : NoCross (execute_match s).2.orders.length (execute_match s).2.orders := by
    rw [hlen]
    intro a b oa ob hab hb hsa hsb hna hnb
    exact houter a b oa ob (by omega) hab hb hsa hsb hna hnb
  have hfinal := matchOuter_noop (execute_match s).2.orders.length
    (execute_match s).2.orders.length 0 (execute_match s).2 [] (by omega) hnc
  show (Except.ok (matchOuter (execute_match s).2.orders.length
      (execute_match s).2.orders.length 0 (execute_match s).2 []).1,
    (matchOuter (execute_match s).2.orders.length (execute_match s).2.orders.length 0
      (execute_match s).2 []).2).1 = Except.ok []
  rw [hfinal]
